import Mathlib

/-!
OAuth request signing (`networklib/src/oauth.cpp`).

A shallow embedding of the OAuth 1.0a signing flow and of the OAuth 2.0
bearer-token request of `networklib`, together with theorems about them.

A C++ `std::string` is a sequence of bytes, so strings are modelled as lists
of `Fin 256`.  String literals of the source (all of them ASCII) are written
with `bytes`.
-/

namespace network

/-- One `char` of a `std::string`, seen as the unsigned byte that
`std::char_traits<char>` compares. -/
abbrev Byte := Fin 256

/-- A `std::string` / `std::string_view`: a sequence of bytes. -/
abbrev Str := List Byte

/-- The bytes of an ASCII string literal of the source. -/
def bytes (s : String) : Str := s.toList.map (fun c => Fin.ofNat c.toNat)

/-! ## `std::string` comparison and `std::sort` -/

/-- The comparison `!(b < a)` for `std::string::operator<`: lexicographic on
unsigned bytes, a proper prefix being smaller. -/
def str_le : Str → Str → Bool
  | [], _ => true
  | _ :: _, [] => false
  | a :: as, b :: bs => if a < b then true else if b < a then false else str_le as bs

/-- The order `a <= b` of `std::string` as a relation. -/
def StrLe (a b : Str) : Prop := str_le a b = true

instance instDecidableRelStrLe : DecidableRel StrLe :=
  fun a b => inferInstanceAs (Decidable (str_le a b = true))

/-- The call `std::sort(begin, end)` on a vector of strings.  The order is total and
antisymmetric, so every sorting algorithm produces the same vector; insertion sort is used
here because it evaluates structurally. -/
def sort (v : List Str) : List Str := List.insertionSort StrLe v

/-! ## `detail::url_encode` and `detail::base64_encode` (`networklib/detail/encode.hpp`) -/

/-- ASCII letter test (`std::isalpha` in the "C" locale). -/
def isalpha (c : Byte) : Bool := (65 ≤ c.val && c.val ≤ 90) || (97 ≤ c.val && c.val ≤ 122)

/-- ASCII digit test (`std::isdigit`). -/
def isdigit (c : Byte) : Bool := 48 ≤ c.val && c.val ≤ 57

/-- ASCII letter-or-digit test (`std::isalnum` in the "C" locale). -/
def isalnum (c : Byte) : Bool := isalpha c || isdigit c

/-- Uppercase hexadecimal digit of a value below 16. -/
def hex_digit (n : Nat) : Byte := if n < 10 then Fin.ofNat (48 + n) else Fin.ofNat (55 + n)

/-- Bytes that the percent-encoder passes through: letters, digits and `- . _ ~`. -/
def unreserved (c : Byte) : Bool :=
  isalnum c || c.val == 45 || c.val == 46 || c.val == 95 || c.val == 126

/-- Percent-encoding of one byte. -/
def encode_byte (c : Byte) : Str :=
  if unreserved c then [c] else [37, hex_digit (c.val / 16), hex_digit (c.val % 16)]

/-- Modelled from the spec: `detail::url_encode` of `networklib/detail/encode.hpp`, which is
not among the sources.  Section 4.1: every byte that is an ASCII letter, a digit or one of
`- . _ ~` passes through unchanged, every other byte becomes `%` followed by two uppercase
hexadecimal digits of its value; the empty input gives the empty output. -/
def url_encode (s : Str) : Str := s.flatMap encode_byte

/-- Value of the base64 alphabet `A-Z a-z 0-9 + /` at an index below 64. -/
def b64_char (n : Nat) : Byte :=
  if n < 26 then Fin.ofNat (65 + n)
  else if n < 52 then Fin.ofNat (71 + n)
  else if n < 62 then Fin.ofNat (n - 4)
  else if n = 62 then 43
  else 47

/-- Modelled from the spec: `detail::base64_encode` of `networklib/detail/encode.hpp`, which is
not among the sources.  The spec only says "base64-encode"; this is the standard encoding
(RFC 4648 alphabet, three bytes to four characters, `=` padding). -/
def base64_encode : List Byte → Str
  | a :: b :: c :: rest =>
      b64_char (a.val / 4) :: b64_char (a.val % 4 * 16 + b.val / 16) ::
        b64_char (b.val % 16 * 4 + c.val / 64) :: b64_char (c.val % 64) :: base64_encode rest
  | [a, b] =>
      [b64_char (a.val / 4), b64_char (a.val % 4 * 16 + b.val / 16), b64_char (b.val % 16 * 4), 61]
  | [a] => [b64_char (a.val / 4), b64_char (a.val % 4 * 16), 61, 61]
  | [] => []

/-- ASCII upper-casing of one byte (`std::toupper` in the "C" locale). -/
def toupper (c : Byte) : Byte := if 97 ≤ c.val ∧ c.val ≤ 122 then Fin.ofNat (c.val - 32) else c

/-- The call `boost::to_upper_copy` in the classic locale. -/
def to_upper_copy (s : Str) : Str := s.map toupper

/-! ## Data model (`networklib/request.hpp`, `networklib/oauth/credentials.hpp`) -/

/-- Modelled from the spec: `network::Request` of `networklib/request.hpp`, which is not among
the sources.  The fields are the ones `oauth.cpp` reads and writes, with the types section 3
gives them: strings, and collections of key/value pairs. -/
structure Request where
  HTTP_method : Str
  HTTP_protocol : Str
  host : Str
  URI : Str
  queries : List (Str × Str)
  messages : List (Str × Str)
  headers : List (Str × Str)
  content_type : Str
  authorization : Str
  deriving DecidableEq

/-- Modelled from the spec: `network::Credentials` of `networklib/oauth/credentials.hpp`, which
is not among the sources: consumer key, consumer secret, user token, token secret. -/
structure Credentials where
  consumer_key : Str
  consumer_secret : Str
  user_token : Str
  token_secret : Str
  deriving DecidableEq

/-! ## Nonce and timestamp -/

/-- Function `gen_nonce`: `rand` is the content of the buffer after `RAND_bytes`; it is
base64-encoded and every character that is not alphanumeric is erased. -/
def gen_nonce (rand : List Byte) : Str :=
  let nonce_string := base64_encode rand
  nonce_string.filter (fun c => !(!isalnum c))

/-- Function `gen_timestamp`: `now` is the value of `std::time(nullptr)`, streamed in decimal. -/
def gen_timestamp (now : Int) : Str := bytes (toString now)

/-! ## Signature -/

/-- Function `hmac_sha1_signature`: `HMAC key message` stands for the 20-byte digest that the
OpenSSL calls `HMAC_Init_ex` (with `EVP_sha1`), `HMAC_Update`, `HMAC_Final` leave in the result
buffer. -/
def hmac_sha1_signature (HMAC : Str → Str → List Byte) (key message : Str) : Str :=
  let result_buffer := HMAC key message
  base64_encode result_buffer

/-- The local `base_url` of `gen_signature`. -/
def base_url (request : Request) : Str :=
  request.HTTP_protocol ++ bytes "://" ++ request.host ++ request.URI

/-- The vector `encoded_parameters` of `gen_signature` before it is sorted: one `push_back` per
query pair, six for the OAuth parameters, one per message-body pair. -/
def encoded_parameters (request : Request) (keys : Credentials)
    (version sig_method nonce timestamp : Str) : List Str :=
  let v : List Str := []
  let v := request.queries.foldl
    (fun v kv => v ++ [url_encode kv.1 ++ bytes "=" ++ url_encode kv.2]) v
  let v := v ++ [url_encode (bytes "oauth_consumer_key") ++ bytes "=" ++ url_encode keys.consumer_key]
  let v := v ++ [url_encode (bytes "oauth_nonce") ++ bytes "=" ++ url_encode nonce]
  let v := v ++ [url_encode (bytes "oauth_signature_method") ++ bytes "=" ++ url_encode sig_method]
  let v := v ++ [url_encode (bytes "oauth_timestamp") ++ bytes "=" ++ url_encode timestamp]
  let v := v ++ [url_encode (bytes "oauth_token") ++ bytes "=" ++ url_encode keys.user_token]
  let v := v ++ [url_encode (bytes "oauth_version") ++ bytes "=" ++ url_encode version]
  request.messages.foldl
    (fun v kv => v ++ [url_encode kv.1 ++ bytes "=" ++ url_encode kv.2]) v

/-- The vector `encoded_parameters` after `std::sort`: the entries that are joined. -/
def sorted_parameters (request : Request) (keys : Credentials)
    (version sig_method nonce timestamp : Str) : List Str :=
  sort (encoded_parameters request keys version sig_method nonce timestamp)

/-- The joining loop of `gen_signature`: the state is `(separator, parameters_string)`. -/
def join_parameters (v : List Str) : Str :=
  (v.foldl (fun (st : Str × Str) key_value_str => (bytes "&", st.2 ++ st.1 ++ key_value_str))
    (([] : Str), ([] : Str))).2

/-- The local `parameters_string` of `gen_signature`. -/
def parameters_string (request : Request) (keys : Credentials)
    (version sig_method nonce timestamp : Str) : Str :=
  join_parameters (sorted_parameters request keys version sig_method nonce timestamp)

/-- The local `sig_base_string` of `gen_signature`. -/
def sig_base_string (request : Request) (keys : Credentials)
    (version sig_method nonce timestamp : Str) : Str :=
  to_upper_copy request.HTTP_method ++ bytes "&" ++
    (url_encode (base_url request) ++ bytes "&" ++
      url_encode (parameters_string request keys version sig_method nonce timestamp))

/-- The local `signing_key` of `gen_signature`. -/
def signing_key (keys : Credentials) : Str :=
  url_encode keys.consumer_secret ++ bytes "&" ++ url_encode keys.token_secret

/-- Function `gen_signature`. -/
def gen_signature (HMAC : Str → Str → List Byte) (request : Request) (keys : Credentials)
    (version sig_method nonce timestamp : Str) : Str :=
  hmac_sha1_signature HMAC (signing_key keys)
    (sig_base_string request keys version sig_method nonce timestamp)

/-! ## `authorize` -/

/-- The string streamed into `oauth` by `authorize`. -/
def oauth_header (keys : Credentials) (version sig_method nonce timestamp signature : Str) : Str :=
  let oauth : Str := []
  let oauth := oauth ++ bytes "OAuth "
  let oauth := oauth ++ url_encode (bytes "oauth_consumer_key") ++ bytes "=\"" ++
    url_encode keys.consumer_key ++ bytes "\", "
  let oauth := oauth ++ url_encode (bytes "oauth_nonce") ++ bytes "=\"" ++ url_encode nonce ++
    bytes "\", "
  let oauth := oauth ++ url_encode (bytes "oauth_signature") ++ bytes "=\"" ++
    url_encode signature ++ bytes "\", "
  let oauth := oauth ++ url_encode (bytes "oauth_signature_method") ++ bytes "=\"" ++
    url_encode sig_method ++ bytes "\", "
  let oauth := oauth ++ url_encode (bytes "oauth_timestamp") ++ bytes "=\"" ++
    url_encode timestamp ++ bytes "\", "
  let oauth := oauth ++ url_encode (bytes "oauth_token") ++ bytes "=\"" ++
    url_encode keys.user_token ++ bytes "\", "
  let oauth := oauth ++ url_encode (bytes "oauth_version") ++ bytes "=\"" ++ url_encode version ++
    bytes "\""
  oauth

/-- Function `authorize`: `rand` is what `RAND_bytes` wrote and `now` what `std::time` returned
during the call; the result is the request after the call. -/
def authorize (HMAC : Str → Str → List Byte) (rand : List Byte) (now : Int)
    (request : Request) (keys : Credentials) : Request :=
  let version := bytes "1.0"
  let sig_method := bytes "HMAC-SHA1"
  let nonce := gen_nonce rand
  let timestamp := gen_timestamp now
  let signature := gen_signature HMAC request keys version sig_method nonce timestamp
  { request with
    authorization := oauth_header keys version sig_method nonce timestamp signature }

/-! ## `get_bearer_token` -/

/-- Exceptions that can leave `get_bearer_token`; `ε` is the type of the exceptions of the
collaborators it calls. -/
inductive Error (ε : Type) where
  /-- The exception `std::runtime_error("Invalid bearer token type")` thrown by
  `get_bearer_token` itself. -/
  | invalid_bearer_token_type : Error ε
  /-- An exception thrown by `https_write`, `https_read`, `to_ptree` or `get`, which
  `get_bearer_token` does not catch. -/
  | propagated (e : ε) : Error ε
  deriving DecidableEq

/-- Modelled from the spec: a parsed response and its accessor `get`, of
`networklib/response.hpp`, which is not among the sources.  Section 6:
`get_field(Response, name) -> string`, fails if the field is absent.  The parsed response is
taken as the list of its named fields. -/
def get_field (message : List (Str × Str)) (name : Str) : Except Unit Str :=
  match message.lookup name with
  | some value => .ok value
  | none => .error ()

/-- The request `bearer_request` that `get_bearer_token` builds; `dflt` is the value of
`Request{}`. -/
def bearer_request (dflt : Request) (consumer_key consumer_secret : Str) : Request :=
  let token_credentials := url_encode consumer_key ++ bytes ":" ++ url_encode consumer_secret
  let token_base64 : List Byte := token_credentials
  let token_credentials := base64_encode token_base64
  let bearer_request := dflt
  let bearer_request := { bearer_request with HTTP_method := bytes "POST" }
  let bearer_request := { bearer_request with URI := bytes "/oauth2/token" }
  let bearer_request := { bearer_request with authorization := bytes "Basic " ++ token_credentials }
  let bearer_request :=
    { bearer_request with content_type := bearer_request.content_type ++ bytes ";charset=UTF-8" }
  let bearer_request :=
    { bearer_request with
      messages := bearer_request.messages ++ [(bytes "grant_type", bytes "client_credentials")] }
  let bearer_request :=
    { bearer_request with
      queries := bearer_request.queries ++ [(bytes "include_entities", bytes "true")] }
  let bearer_request :=
    { bearer_request with
      headers := bearer_request.headers ++ [(bytes "Accept-Encoding", bytes "gzip")] }
  bearer_request

/-- Function `get_bearer_token`.  The collaborators are parameters: `send` stands for
`to_ptree(https_read(https_write(request)))` and `get` for the accessor of the parsed response,
each returning its value or the exception it throws, and `dflt` is the value of `Request{}`.
The result is the returned string or the exception that leaves the function, together with the
names of the fields read from the parsed response, in the order of the calls to `get`. -/
def get_bearer_token {ε Ptree : Type} (send : Request → Except ε Ptree)
    (get : Ptree → Str → Except ε Str) (dflt : Request)
    (consumer_key consumer_secret : Str) : Except (Error ε) Str × List Str :=
  match send (bearer_request dflt consumer_key consumer_secret) with
  | .error e => (.error (.propagated e), [])
  | .ok message =>
    match get message (bytes "token_type") with
    | .error e => (.error (.propagated e), [bytes "token_type"])
    | .ok token_type =>
      if token_type ≠ bytes "bearer" then
        (.error .invalid_bearer_token_type, [bytes "token_type"])
      else
        match get message (bytes "access_token") with
        | .error e => (.error (.propagated e), [bytes "token_type", bytes "access_token"])
        | .ok access_token => (.ok access_token, [bytes "token_type", bytes "access_token"])

/-! ## Auxiliary definitions used in the statements and proofs -/

/-- The strings `p` and `q` differ at a position both have, with the smaller byte in `p`. -/
def lt_within : Str → Str → Bool
  | a :: as, b :: bs => if a < b then true else if b < a then false else lt_within as bs
  | _, _ => false

/-- The entry `encode(key) + "=" + encode(value)` of a key/value pair. -/
def encode_pair (kv : Str × Str) : Str := url_encode kv.1 ++ bytes "=" ++ url_encode kv.2

/-! ## The order on strings -/

theorem str_le_refl : ∀ a : Str, str_le a a = true
  | [] => by simp [str_le]
  | a :: as => by simp [str_le, str_le_refl as]

theorem str_le_total : ∀ a b : Str, str_le a b = true ∨ str_le b a = true
  | [], _ => by simp [str_le]
  | _ :: _, [] => by simp [str_le]
  | a :: as, b :: bs => by
    simp only [str_le]
    rcases lt_trichotomy a b with h | h | h
    · simp [h]
    · subst h
      simpa using str_le_total as bs
    · simp [h]

theorem str_le_trans : ∀ a b c : Str, str_le a b = true → str_le b c = true → str_le a c = true
  | [], _, _, _, _ => by simp [str_le]
  | _ :: _, [], _, h, _ => by simp [str_le] at h
  | _ :: _, _ :: _, [], _, h => by simp [str_le] at h
  | a :: as, b :: bs, c :: cs, h1, h2 => by
    simp only [str_le] at h1 h2 ⊢
    rcases lt_trichotomy a b with hab | hab | hab
    · rcases lt_trichotomy b c with hbc | hbc | hbc
      · simp [lt_trans hab hbc]
      · subst hbc
        simp [hab]
      · simp [hbc, not_lt_of_gt hbc] at h2
    · subst hab
      rcases lt_trichotomy a c with hbc | hbc | hbc
      · simp [hbc]
      · subst hbc
        simp only [lt_self_iff_false, if_false] at h1 h2 ⊢
        exact str_le_trans as bs cs h1 h2
      · simp [hbc, not_lt_of_gt hbc] at h2
    · simp [hab, not_lt_of_gt hab] at h1

theorem str_le_antisymm : ∀ a b : Str, str_le a b = true → str_le b a = true → a = b
  | [], [], _, _ => rfl
  | [], _ :: _, _, h => by simp [str_le] at h
  | _ :: _, [], h, _ => by simp [str_le] at h
  | a :: as, b :: bs, h1, h2 => by
    simp only [str_le] at h1 h2
    rcases lt_trichotomy a b with hab | hab | hab
    · simp [hab, not_lt_of_gt hab] at h2
    · subst hab
      simp only [lt_self_iff_false, if_false] at h1 h2
      rw [str_le_antisymm as bs h1 h2]
    · simp [hab, not_lt_of_gt hab] at h1

instance instIsTotalStrLe : IsTotal Str StrLe := ⟨str_le_total⟩

instance instIsTransStrLe : IsTrans Str StrLe := ⟨str_le_trans⟩

instance instIsAntisymmStrLe : IsAntisymm Str StrLe := ⟨str_le_antisymm⟩

/-- The order `str_le` is the lexicographic order on unsigned bytes. -/
theorem str_le_iff_lex : ∀ a b : Str,
    str_le a b = true ↔ a = b ∨ List.Lex (fun x y : Byte => x < y) a b
  | [], [] => by simp [str_le]
  | [], _ :: _ => by simp [str_le, List.Lex.nil]
  | _ :: _, [] => by simp [str_le]
  | a :: as, b :: bs => by
    simp only [str_le]
    rcases lt_trichotomy a b with h | h | h
    · simp [h, List.Lex.rel h]
    · subst h
      simp [str_le_iff_lex as bs, List.Lex.cons_iff]
    · have hne : a ≠ b := ne_of_gt h
      simp only [not_lt_of_gt h, h, if_false, if_true, Bool.false_eq_true, false_iff, not_or]
      refine ⟨fun he => hne (List.cons.inj he).1, fun hl => ?_⟩
      cases hl with
      | cons hl => exact hne rfl
      | rel hl => exact absurd hl (not_lt_of_gt h)

theorem sort_sorted (v : List Str) : List.Sorted StrLe (sort v) :=
  List.sorted_insertionSort StrLe v

theorem sort_perm (v : List Str) : List.Perm (sort v) v :=
  List.perm_insertionSort StrLe v

theorem str_le_append_of_lt_within : ∀ (p q x y : Str), lt_within p q = true →
    str_le (p ++ x) (q ++ y) = true
  | [], _, _, _, h => by simp [lt_within] at h
  | _ :: _, [], _, _, h => by simp [lt_within] at h
  | a :: as, b :: bs, x, y, h => by
    simp only [lt_within] at h
    simp only [List.cons_append, str_le]
    rcases lt_trichotomy a b with hab | hab | hab
    · simp [hab]
    · subst hab
      simp only [lt_self_iff_false, if_false] at h ⊢
      exact str_le_append_of_lt_within as bs x y h
    · simp [hab, not_lt_of_gt hab] at h

/-! ## The parameter list -/

theorem foldl_push_back (f : Str × Str → Str) (l : List (Str × Str)) (v : List Str) :
    l.foldl (fun v kv => v ++ [f kv]) v = v ++ l.map f := by
  induction l generalizing v with
  | nil => simp
  | cons kv l ih => simp [ih]

theorem encoded_parameters_eq (request : Request) (keys : Credentials)
    (version sig_method nonce timestamp : Str) :
    encoded_parameters request keys version sig_method nonce timestamp =
      request.queries.map encode_pair ++
        [encode_pair (bytes "oauth_consumer_key", keys.consumer_key),
         encode_pair (bytes "oauth_nonce", nonce),
         encode_pair (bytes "oauth_signature_method", sig_method),
         encode_pair (bytes "oauth_timestamp", timestamp),
         encode_pair (bytes "oauth_token", keys.user_token),
         encode_pair (bytes "oauth_version", version)] ++
        request.messages.map encode_pair := by
  have h := foldl_push_back encode_pair
  simp only [encode_pair] at h
  simp only [encoded_parameters, h, encode_pair]
  simp

/-- C1: the entries that `gen_signature` joins are sorted in ascending byte-wise order and are
a permutation of the entries `encode(key) + "=" + encode(value)` of every query pair, of the six
OAuth pairs and of every message-body pair; nothing is dropped or merged, so there are
`|queries| + 6 + |messages|` of them. -/
theorem C1_sorted_parameters (request : Request) (keys : Credentials)
    (version sig_method nonce timestamp : Str) :
    List.Sorted (fun a b => str_le a b = true)
        (sorted_parameters request keys version sig_method nonce timestamp) ∧
      List.Perm (sorted_parameters request keys version sig_method nonce timestamp)
        (request.queries.map (fun kv => url_encode kv.1 ++ bytes "=" ++ url_encode kv.2) ++
          [url_encode (bytes "oauth_consumer_key") ++ bytes "=" ++ url_encode keys.consumer_key,
           url_encode (bytes "oauth_nonce") ++ bytes "=" ++ url_encode nonce,
           url_encode (bytes "oauth_signature_method") ++ bytes "=" ++ url_encode sig_method,
           url_encode (bytes "oauth_timestamp") ++ bytes "=" ++ url_encode timestamp,
           url_encode (bytes "oauth_token") ++ bytes "=" ++ url_encode keys.user_token,
           url_encode (bytes "oauth_version") ++ bytes "=" ++ url_encode version] ++
          request.messages.map (fun kv => url_encode kv.1 ++ bytes "=" ++ url_encode kv.2)) ∧
      (sorted_parameters request keys version sig_method nonce timestamp).length =
        request.queries.length + 6 + request.messages.length := by
  have hp : List.Perm (sorted_parameters request keys version sig_method nonce timestamp)
      (encoded_parameters request keys version sig_method nonce timestamp) := sort_perm _
  refine ⟨sort_sorted _, ?_, ?_⟩
  · rw [encoded_parameters_eq] at hp
    exact hp
  · rw [hp.length_eq, encoded_parameters_eq]
    simp only [List.length_append, List.length_map, List.length_cons, List.length_nil]

theorem six_sorted (a b c d e f : Str) :
    List.Sorted StrLe
      [encode_pair (bytes "oauth_consumer_key", a), encode_pair (bytes "oauth_nonce", b),
       encode_pair (bytes "oauth_signature_method", c), encode_pair (bytes "oauth_timestamp", d),
       encode_pair (bytes "oauth_token", e), encode_pair (bytes "oauth_version", f)] := by
  rw [List.Sorted, ← List.chain'_iff_pairwise]
  simp only [encode_pair, List.chain'_cons, List.chain'_singleton, and_true]
  refine ⟨?_, ?_, ?_, ?_, ?_⟩ <;>
    exact str_le_append_of_lt_within _ _ _ _ (by decide)

theorem join_six (a b c d e f : Str) :
    join_parameters [a, b, c, d, e, f] =
      a ++ bytes "&" ++ b ++ bytes "&" ++ c ++ bytes "&" ++ d ++ bytes "&" ++ e ++ bytes "&" ++ f := by
  simp [join_parameters]

/-- C2: when the request has neither query nor message-body pairs, the parameter string is
exactly the six OAuth pairs, in the order consumer key, nonce, signature method, timestamp,
token, version, whatever their values are. -/
theorem C2_parameters_string_six (request : Request) (keys : Credentials)
    (version sig_method nonce timestamp : Str)
    (hq : request.queries = []) (hm : request.messages = []) :
    parameters_string request keys version sig_method nonce timestamp =
      bytes "oauth_consumer_key=" ++ url_encode keys.consumer_key ++
      bytes "&oauth_nonce=" ++ url_encode nonce ++
      bytes "&oauth_signature_method=" ++ url_encode sig_method ++
      bytes "&oauth_timestamp=" ++ url_encode timestamp ++
      bytes "&oauth_token=" ++ url_encode keys.user_token ++
      bytes "&oauth_version=" ++ url_encode version := by
  have h1 : bytes "oauth_consumer_key=" = url_encode (bytes "oauth_consumer_key") ++ bytes "=" := by
    decide
  have h2 : bytes "&oauth_nonce=" = bytes "&" ++ (url_encode (bytes "oauth_nonce") ++ bytes "=") := by
    decide
  have h3 : bytes "&oauth_signature_method=" =
      bytes "&" ++ (url_encode (bytes "oauth_signature_method") ++ bytes "=") := by decide
  have h4 : bytes "&oauth_timestamp=" =
      bytes "&" ++ (url_encode (bytes "oauth_timestamp") ++ bytes "=") := by decide
  have h5 : bytes "&oauth_token=" = bytes "&" ++ (url_encode (bytes "oauth_token") ++ bytes "=") := by
    decide
  have h6 : bytes "&oauth_version=" =
      bytes "&" ++ (url_encode (bytes "oauth_version") ++ bytes "=") := by decide
  rw [parameters_string, sorted_parameters, encoded_parameters_eq, hq, hm, sort]
  simp only [List.map_nil, List.nil_append, List.append_nil]
  rw [List.Sorted.insertionSort_eq (six_sorted _ _ _ _ _ _), join_six, h1, h2, h3, h4, h5, h6]
  simp only [encode_pair, List.append_assoc]

/-- Witness of C2 at a request without parameters. -/
theorem C2_parameters_string_six_witness :
    parameters_string
        { HTTP_method := bytes "GET", HTTP_protocol := bytes "https", host := bytes "h",
          URI := bytes "/", queries := [], messages := [], headers := [], content_type := [],
          authorization := [] }
        { consumer_key := bytes "z k", consumer_secret := [], user_token := bytes "a",
          token_secret := [] }
        (bytes "1.0") (bytes "HMAC-SHA1") (bytes "N1") (bytes "5") =
      bytes "oauth_consumer_key=" ++ url_encode (bytes "z k") ++
      bytes "&oauth_nonce=" ++ url_encode (bytes "N1") ++
      bytes "&oauth_signature_method=" ++ url_encode (bytes "HMAC-SHA1") ++
      bytes "&oauth_timestamp=" ++ url_encode (bytes "5") ++
      bytes "&oauth_token=" ++ url_encode (bytes "a") ++
      bytes "&oauth_version=" ++ url_encode (bytes "1.0") :=
  C2_parameters_string_six _ _ _ _ _ _ rfl rfl

set_option maxRecDepth 100000 in
/-- C3: the message that `gen_signature` hands to the HMAC is
`UPPERCASE(HTTP_method) + "&" + encode(base_url) + "&" + encode(parameter_string)` with
`base_url = HTTP_protocol + "://" + host + URI`, which does not depend on the query list; on the
end-to-end example of the specification it is the expected base string. -/
theorem C3_signature_base_string :
    (∀ (HMAC : Str → Str → List Byte) (request : Request) (keys : Credentials)
        (version sig_method nonce timestamp : Str),
        gen_signature HMAC request keys version sig_method nonce timestamp =
          base64_encode (HMAC (signing_key keys)
            (to_upper_copy request.HTTP_method ++ bytes "&" ++
              url_encode (request.HTTP_protocol ++ bytes "://" ++ request.host ++ request.URI) ++
              bytes "&" ++
              url_encode (parameters_string request keys version sig_method nonce timestamp)))) ∧
      (∀ (request : Request) (queries : List (Str × Str)),
        base_url { request with queries := queries } = base_url request) ∧
      to_upper_copy (bytes "get") = bytes "GET" ∧
      sig_base_string
          { HTTP_method := bytes "GET", HTTP_protocol := bytes "https",
            host := bytes "api.example.com", URI := bytes "/1/statuses",
            queries := [(bytes "screen_name", bytes "abc")], messages := [], headers := [],
            content_type := [], authorization := [] }
          { consumer_key := bytes "ck", consumer_secret := bytes "cs", user_token := bytes "ut",
            token_secret := bytes "ts" }
          (bytes "1.0") (bytes "HMAC-SHA1") (bytes "N1") (bytes "1000000000") =
        bytes ("GET&https%3A%2F%2Fapi.example.com%2F1%2Fstatuses&oauth_consumer_key%3Dck%26" ++
          "oauth_nonce%3DN1%26oauth_signature_method%3DHMAC-SHA1%26oauth_timestamp%3D1000000000" ++
          "%26oauth_token%3Dut%26oauth_version%3D1.0%26screen_name%3Dabc") := by
  refine ⟨?_, ?_, by decide, by decide⟩
  · intro HMAC request keys version sig_method nonce timestamp
    simp only [gen_signature, hmac_sha1_signature, sig_base_string, base_url, List.append_assoc]
  · intro request queries
    rfl

/-- C4: `gen_signature` returns `base64(HMAC(key, base_string))` with
`key = encode(consumer_secret) + "&" + encode(token_secret)`; it is a total function, and with
two empty secrets the key is exactly `"&"` and a signature is still returned. -/
theorem C4_signing_key :
    (∀ (HMAC : Str → Str → List Byte) (request : Request) (keys : Credentials)
        (version sig_method nonce timestamp : Str),
        gen_signature HMAC request keys version sig_method nonce timestamp =
          base64_encode
            (HMAC (url_encode keys.consumer_secret ++ bytes "&" ++ url_encode keys.token_secret)
              (sig_base_string request keys version sig_method nonce timestamp))) ∧
      (∀ (HMAC : Str → Str → List Byte) (request : Request) (consumer_key user_token : Str)
        (version sig_method nonce timestamp : Str),
        signing_key { consumer_key := consumer_key, consumer_secret := [],
                      user_token := user_token, token_secret := [] } = bytes "&" ∧
        gen_signature HMAC request
            { consumer_key := consumer_key, consumer_secret := [],
              user_token := user_token, token_secret := [] }
            version sig_method nonce timestamp =
          base64_encode (HMAC (bytes "&")
            (sig_base_string request
              { consumer_key := consumer_key, consumer_secret := [],
                user_token := user_token, token_secret := [] }
              version sig_method nonce timestamp))) := by
  refine ⟨fun _ _ _ _ _ _ _ => rfl, fun _ _ _ _ _ _ _ _ => ⟨rfl, rfl⟩⟩

/-! ## The authorization header -/

theorem oauth_header_eq (keys : Credentials) (version sig_method nonce timestamp signature : Str) :
    oauth_header keys version sig_method nonce timestamp signature =
      bytes "OAuth oauth_consumer_key=\"" ++ url_encode keys.consumer_key ++
      bytes "\", oauth_nonce=\"" ++ url_encode nonce ++
      bytes "\", oauth_signature=\"" ++ url_encode signature ++
      bytes "\", oauth_signature_method=\"" ++ url_encode sig_method ++
      bytes "\", oauth_timestamp=\"" ++ url_encode timestamp ++
      bytes "\", oauth_token=\"" ++ url_encode keys.user_token ++
      bytes "\", oauth_version=\"" ++ url_encode version ++ bytes "\"" := by
  have h1 : bytes "OAuth oauth_consumer_key=\"" =
      bytes "OAuth " ++ (url_encode (bytes "oauth_consumer_key") ++ bytes "=\"") := by decide
  have h2 : bytes "\", oauth_nonce=\"" =
      bytes "\", " ++ (url_encode (bytes "oauth_nonce") ++ bytes "=\"") := by decide
  have h3 : bytes "\", oauth_signature=\"" =
      bytes "\", " ++ (url_encode (bytes "oauth_signature") ++ bytes "=\"") := by decide
  have h4 : bytes "\", oauth_signature_method=\"" =
      bytes "\", " ++ (url_encode (bytes "oauth_signature_method") ++ bytes "=\"") := by decide
  have h5 : bytes "\", oauth_timestamp=\"" =
      bytes "\", " ++ (url_encode (bytes "oauth_timestamp") ++ bytes "=\"") := by decide
  have h6 : bytes "\", oauth_token=\"" =
      bytes "\", " ++ (url_encode (bytes "oauth_token") ++ bytes "=\"") := by decide
  have h7 : bytes "\", oauth_version=\"" =
      bytes "\", " ++ (url_encode (bytes "oauth_version") ++ bytes "=\"") := by decide
  rw [h1, h2, h3, h4, h5, h6, h7]
  simp only [oauth_header, List.nil_append, List.append_assoc]

/-- C5: the authorization string written by `authorize` is the literal
`OAuth oauth_consumer_key="E(consumer_key)", oauth_nonce="E(nonce)", oauth_signature="E(signature)", oauth_signature_method="HMAC-SHA1", oauth_timestamp="E(timestamp)", oauth_token="E(user_token)", oauth_version="1.0"`,
with `E` the percent-encoder, for every request, credentials, nonce and timestamp. -/
theorem C5_authorization_string (HMAC : Str → Str → List Byte) (rand : List Byte) (now : Int)
    (request : Request) (keys : Credentials) :
    (authorize HMAC rand now request keys).authorization =
      bytes "OAuth oauth_consumer_key=\"" ++ url_encode keys.consumer_key ++
      bytes "\", oauth_nonce=\"" ++ url_encode (gen_nonce rand) ++
      bytes "\", oauth_signature=\"" ++
        url_encode (gen_signature HMAC request keys (bytes "1.0") (bytes "HMAC-SHA1")
          (gen_nonce rand) (gen_timestamp now)) ++
      bytes "\", oauth_signature_method=\"HMAC-SHA1\", oauth_timestamp=\"" ++
        url_encode (gen_timestamp now) ++
      bytes "\", oauth_token=\"" ++ url_encode keys.user_token ++
      bytes "\", oauth_version=\"1.0\"" := by
  have h1 : bytes "\", oauth_signature_method=\"HMAC-SHA1\", oauth_timestamp=\"" =
      bytes "\", oauth_signature_method=\"" ++ (url_encode (bytes "HMAC-SHA1") ++
        bytes "\", oauth_timestamp=\"") := by decide
  have h2 : bytes "\", oauth_version=\"1.0\"" =
      bytes "\", oauth_version=\"" ++ (url_encode (bytes "1.0") ++ bytes "\"") := by decide
  rw [h1, h2]
  simp only [authorize, oauth_header_eq, List.append_assoc]

theorem unreserved_hex_digit : ∀ n : Nat, n < 16 → unreserved (hex_digit n) = true := by
  decide

theorem count_encode_byte (c b : Byte) (hc : unreserved c = false) (h37 : c ≠ 37) :
    List.count c (encode_byte b) = 0 := by
  have hx : ∀ n : Nat, n < 16 → hex_digit n ≠ c := by
    intro n hn he
    rw [← he, unreserved_hex_digit n hn] at hc
    exact Bool.noConfusion hc
  rw [List.count_eq_zero]
  unfold encode_byte
  split
  · rename_i hb
    intro hmem
    rw [List.mem_singleton] at hmem
    rw [hmem, hb] at hc
    exact Bool.noConfusion hc
  · intro hmem
    simp only [List.mem_cons, List.mem_singleton, List.mem_nil_iff, or_false] at hmem
    rcases hmem with h | h | h
    · exact h37 h
    · exact hx _ (by omega) h.symm
    · exact hx _ (by omega) h.symm

/-- A byte that the percent-encoder never emits does not occur in an encoded string. -/
theorem count_url_encode (c : Byte) (s : Str) (hc : unreserved c = false) (h37 : c ≠ 37) :
    List.count c (url_encode s) = 0 := by
  induction s with
  | nil => rfl
  | cons b s ih =>
    have : url_encode (b :: s) = encode_byte b ++ url_encode s := by
      simp [url_encode]
    rw [this, List.count_append, count_encode_byte c b hc h37, ih]

/-- C6: every value that `authorize` embeds in the header is percent-encoded, so the header
contains exactly the 14 double quotes and the 6 commas of its template, whatever bytes the
consumer key, the user token and the other inputs contain. -/
theorem C6_header_quotes_and_commas (HMAC : Str → Str → List Byte) (rand : List Byte)
    (now : Int) (request : Request) (keys : Credentials) :
    List.count (34 : Byte) (authorize HMAC rand now request keys).authorization = 14 ∧
      List.count (44 : Byte) (authorize HMAC rand now request keys).authorization = 6 := by
  have hq : ∀ s, List.count (34 : Byte) (url_encode s) = 0 :=
    fun s => count_url_encode 34 s (by decide) (by decide)
  have hc : ∀ s, List.count (44 : Byte) (url_encode s) = 0 :=
    fun s => count_url_encode 44 s (by decide) (by decide)
  have e1 : List.count (34 : Byte) (bytes "=\"") = 1 := by decide
  have e2 : List.count (34 : Byte) (bytes "\", ") = 1 := by decide
  have e3 : List.count (34 : Byte) (bytes "\"") = 1 := by decide
  have e4 : List.count (34 : Byte) (bytes "OAuth ") = 0 := by decide
  have f1 : List.count (44 : Byte) (bytes "=\"") = 0 := by decide
  have f2 : List.count (44 : Byte) (bytes "\", ") = 1 := by decide
  have f3 : List.count (44 : Byte) (bytes "\"") = 0 := by decide
  have f4 : List.count (44 : Byte) (bytes "OAuth ") = 0 := by decide
  constructor
  · simp only [authorize, oauth_header, List.count_append, List.count_nil, hq, e1, e2, e3, e4]
  · simp only [authorize, oauth_header, List.count_append, List.count_nil, hc, f1, f2, f3, f4]

/-- The signature does not read the authorization field of the request. -/
theorem gen_signature_prior_authorization (HMAC : Str → Str → List Byte) (request : Request)
    (keys : Credentials) (version sig_method nonce timestamp prior : Str) :
    gen_signature HMAC { request with authorization := prior } keys version sig_method nonce
        timestamp =
      gen_signature HMAC request keys version sig_method nonce timestamp := by
  simp only [gen_signature, sig_base_string, base_url, parameters_string, sorted_parameters,
    encoded_parameters]

/-- C7: `authorize` changes only the authorization field of the request, and the value it
writes there does not depend on what the field held before the call. -/
theorem C7_authorize_frame (HMAC : Str → Str → List Byte) (rand : List Byte) (now : Int)
    (request : Request) (keys : Credentials) :
    (authorize HMAC rand now request keys).HTTP_method = request.HTTP_method ∧
      (authorize HMAC rand now request keys).HTTP_protocol = request.HTTP_protocol ∧
      (authorize HMAC rand now request keys).host = request.host ∧
      (authorize HMAC rand now request keys).URI = request.URI ∧
      (authorize HMAC rand now request keys).queries = request.queries ∧
      (authorize HMAC rand now request keys).messages = request.messages ∧
      (authorize HMAC rand now request keys).headers = request.headers ∧
      (authorize HMAC rand now request keys).content_type = request.content_type ∧
      (∀ prior : Str,
        (authorize HMAC rand now { request with authorization := prior } keys).authorization =
          (authorize HMAC rand now request keys).authorization) ∧
      (∀ prior : Str,
        authorize HMAC rand now { request with authorization := prior } keys =
          authorize HMAC rand now request keys) := by
  refine ⟨?_, ?_, ?_, ?_, ?_, ?_, ?_, ?_, fun prior => ?_, fun prior => ?_⟩ <;>
    simp only [authorize, gen_signature_prior_authorization]

/-! ## The bearer token -/

/-- C8: for a parsed response with a `token_type` field, `get_bearer_token` throws the
invalid-token-type error exactly when `token_type` is not the string `bearer`, and then
`access_token` is not read; when it is `bearer`, the value of the `access_token` field is
returned as read. -/
theorem C8_bearer_token_type {ε Ptree : Type} (send : Request → Except ε Ptree)
    (get : Ptree → Str → Except ε Str) (dflt : Request)
    (consumer_key consumer_secret : Str) (message : Ptree) (token_type : Str)
    (hsend : send (bearer_request dflt consumer_key consumer_secret) = .ok message)
    (htype : get message (bytes "token_type") = .ok token_type) :
    ((get_bearer_token send get dflt consumer_key consumer_secret).1 =
        .error .invalid_bearer_token_type ↔ token_type ≠ bytes "bearer") ∧
      (token_type ≠ bytes "bearer" →
        bytes "access_token" ∉ (get_bearer_token send get dflt consumer_key consumer_secret).2) ∧
      (token_type = bytes "bearer" →
        ∀ access_token, get message (bytes "access_token") = .ok access_token →
          (get_bearer_token send get dflt consumer_key consumer_secret).1 = .ok access_token) := by
  by_cases h : token_type = bytes "bearer"
  · refine ⟨?_, fun hne => absurd h hne, fun _ access_token ha => ?_⟩
    · simp only [get_bearer_token, hsend, htype, h, ne_eq, not_true_eq_false, if_false, iff_false]
      cases get message (bytes "access_token") <;> simp
    · simp only [get_bearer_token, hsend, htype, h, ne_eq, not_true_eq_false, if_false, ha]
  · have hr : get_bearer_token send get dflt consumer_key consumer_secret =
        (.error .invalid_bearer_token_type, [bytes "token_type"]) := by
      simp only [get_bearer_token, hsend, htype, ne_eq, h, not_false_eq_true, if_true]
    rw [hr]
    refine ⟨by simp [h], fun _ => ?_, fun he => absurd he h⟩
    show bytes "access_token" ∉ [bytes "token_type"]
    decide

/-- Witness of C8: `token_type=bearer, access_token=ABC123` returns `ABC123`, and
`token_type=mac` fails without reading `access_token`. -/
theorem C8_bearer_token_type_witness :
    (get_bearer_token
        (fun _ => .ok [(bytes "token_type", bytes "bearer"), (bytes "access_token", bytes "ABC123")])
        get_field
        { HTTP_method := [], HTTP_protocol := bytes "https", host := bytes "api.twitter.com",
          URI := [], queries := [], messages := [], headers := [],
          content_type := bytes "application/x-www-form-urlencoded", authorization := [] }
        (bytes "ck") (bytes "cs")).1 = .ok (bytes "ABC123") ∧
      (get_bearer_token
        (fun _ => .ok [(bytes "token_type", bytes "mac"), (bytes "access_token", bytes "ABC123")])
        get_field
        { HTTP_method := [], HTTP_protocol := bytes "https", host := bytes "api.twitter.com",
          URI := [], queries := [], messages := [], headers := [],
          content_type := bytes "application/x-www-form-urlencoded", authorization := [] }
        (bytes "ck") (bytes "cs")).1 = .error .invalid_bearer_token_type ∧
      bytes "access_token" ∉ (get_bearer_token
        (fun _ => .ok [(bytes "token_type", bytes "mac"), (bytes "access_token", bytes "ABC123")])
        get_field
        { HTTP_method := [], HTTP_protocol := bytes "https", host := bytes "api.twitter.com",
          URI := [], queries := [], messages := [], headers := [],
          content_type := bytes "application/x-www-form-urlencoded", authorization := [] }
        (bytes "ck") (bytes "cs")).2 :=
  ⟨(C8_bearer_token_type _ get_field _ _ _
      [(bytes "token_type", bytes "bearer"), (bytes "access_token", bytes "ABC123")]
      (bytes "bearer") rfl rfl).2.2 rfl (bytes "ABC123") rfl,
   (C8_bearer_token_type _ get_field _ _ _
      [(bytes "token_type", bytes "mac"), (bytes "access_token", bytes "ABC123")]
      (bytes "mac") rfl rfl).1.2 (by decide),
   (C8_bearer_token_type _ get_field _ _ _
      [(bytes "token_type", bytes "mac"), (bytes "access_token", bytes "ABC123")]
      (bytes "mac") rfl rfl).2.1 (by decide)⟩

/-- C9: the request that `get_bearer_token` hands to the transport is a `POST` to
`/oauth2/token` with authorization `"Basic " + base64(encode(key) + ":" + encode(secret))`,
a content type ending in `;charset=UTF-8`, the single body pair
`grant_type=client_credentials`, the single query pair `include_entities=true` and the single
header `Accept-Encoding: gzip`, when the default request has empty collections; only the
authorization value depends on the credentials.  The transport is called on this request:
the result depends on the transport through its answer to this request only, a failure of
the transport on this request leaves `get_bearer_token` before any field is read, and a
`bearer` answer to this request gives the token. -/
theorem C9_bearer_request_shape (dflt : Request) (consumer_key consumer_secret : Str)
    (hq : dflt.queries = []) (hm : dflt.messages = []) (hh : dflt.headers = []) :
    (bearer_request dflt consumer_key consumer_secret).HTTP_method = bytes "POST" ∧
      (bearer_request dflt consumer_key consumer_secret).URI = bytes "/oauth2/token" ∧
      (bearer_request dflt consumer_key consumer_secret).authorization =
        bytes "Basic " ++
          base64_encode (url_encode consumer_key ++ bytes ":" ++ url_encode consumer_secret) ∧
      bytes ";charset=UTF-8" <:+ (bearer_request dflt consumer_key consumer_secret).content_type ∧
      (bearer_request dflt consumer_key consumer_secret).messages =
        [(bytes "grant_type", bytes "client_credentials")] ∧
      (bearer_request dflt consumer_key consumer_secret).queries =
        [(bytes "include_entities", bytes "true")] ∧
      (bearer_request dflt consumer_key consumer_secret).headers =
        [(bytes "Accept-Encoding", bytes "gzip")] ∧
      (∀ (ε Ptree : Type) (send : Request → Except ε Ptree) (get : Ptree → Str → Except ε Str),
        get_bearer_token send get dflt consumer_key consumer_secret =
          get_bearer_token
            (fun _ => send (bearer_request dflt consumer_key consumer_secret))
            get dflt consumer_key consumer_secret) ∧
      (∀ key2 secret2 : Str,
        { bearer_request dflt key2 secret2 with
            authorization := (bearer_request dflt consumer_key consumer_secret).authorization } =
          bearer_request dflt consumer_key consumer_secret) ∧
      (∀ (ε Ptree : Type) (send : Request → Except ε Ptree) (get : Ptree → Str → Except ε Str)
          (e : ε),
        send (bearer_request dflt consumer_key consumer_secret) = .error e →
          get_bearer_token send get dflt consumer_key consumer_secret =
            (.error (.propagated e), [])) ∧
      (∀ (ε Ptree : Type) (send : Request → Except ε Ptree) (get : Ptree → Str → Except ε Str)
          (message : Ptree) (access_token : Str),
        send (bearer_request dflt consumer_key consumer_secret) = .ok message →
          get message (bytes "token_type") = .ok (bytes "bearer") →
          get message (bytes "access_token") = .ok access_token →
          get_bearer_token send get dflt consumer_key consumer_secret =
            (.ok access_token, [bytes "token_type", bytes "access_token"])) := by
  refine ⟨?_, ?_, ?_, ?_, ?_, ?_, ?_, fun ε Ptree send get => ?_, fun key2 secret2 => ?_,
    fun ε Ptree send get e he => ?_, fun ε Ptree send get message access_token hs ht ha => ?_⟩
  · simp only [bearer_request]
  · simp only [bearer_request]
  · simp only [bearer_request]
  · simp only [bearer_request]
    exact List.suffix_append _ _
  · simp only [bearer_request, hm, List.nil_append]
  · simp only [bearer_request, hq, List.nil_append]
  · simp only [bearer_request, hh, List.nil_append]
  · simp only [get_bearer_token]
  · simp only [bearer_request]
  · simp only [get_bearer_token, he]
  · simp only [get_bearer_token, hs, ht, ha, ne_eq, not_true_eq_false, if_false]

/-- Witness of C9 at a default request with empty collections and credentials `a b`, `c`:
the shape of the request, a transport that fails on exactly this request and answers every
other one, and a transport that answers exactly this request and fails on every other one. -/
theorem C9_bearer_request_shape_witness :
    (bearer_request
        { HTTP_method := [], HTTP_protocol := bytes "https", host := bytes "api.twitter.com",
          URI := [], queries := [], messages := [], headers := [],
          content_type := bytes "application/x-www-form-urlencoded", authorization := [] }
        (bytes "a b") (bytes "c")).queries = [(bytes "include_entities", bytes "true")] ∧
      (bearer_request
        { HTTP_method := [], HTTP_protocol := bytes "https", host := bytes "api.twitter.com",
          URI := [], queries := [], messages := [], headers := [],
          content_type := bytes "application/x-www-form-urlencoded", authorization := [] }
        (bytes "a b") (bytes "c")).authorization = bytes "Basic YSUyMGI6Yw==" ∧
      get_bearer_token
          (fun r =>
            if r = bearer_request
                { HTTP_method := [], HTTP_protocol := bytes "https",
                  host := bytes "api.twitter.com", URI := [], queries := [], messages := [],
                  headers := [], content_type := bytes "application/x-www-form-urlencoded",
                  authorization := [] }
                (bytes "a b") (bytes "c")
            then .error ()
            else .ok [(bytes "token_type", bytes "bearer"), (bytes "access_token", bytes "T")])
          get_field
          { HTTP_method := [], HTTP_protocol := bytes "https", host := bytes "api.twitter.com",
            URI := [], queries := [], messages := [], headers := [],
            content_type := bytes "application/x-www-form-urlencoded", authorization := [] }
          (bytes "a b") (bytes "c") = (.error (.propagated ()), []) ∧
      get_bearer_token
          (fun r =>
            if r = bearer_request
                { HTTP_method := [], HTTP_protocol := bytes "https",
                  host := bytes "api.twitter.com", URI := [], queries := [], messages := [],
                  headers := [], content_type := bytes "application/x-www-form-urlencoded",
                  authorization := [] }
                (bytes "a b") (bytes "c")
            then .ok [(bytes "token_type", bytes "bearer"), (bytes "access_token", bytes "T")]
            else .error ())
          get_field
          { HTTP_method := [], HTTP_protocol := bytes "https", host := bytes "api.twitter.com",
            URI := [], queries := [], messages := [], headers := [],
            content_type := bytes "application/x-www-form-urlencoded", authorization := [] }
          (bytes "a b") (bytes "c") =
        (.ok (bytes "T"), [bytes "token_type", bytes "access_token"]) :=
  ⟨(C9_bearer_request_shape _ (bytes "a b") (bytes "c") rfl rfl rfl).2.2.2.2.2.1,
   (C9_bearer_request_shape _ (bytes "a b") (bytes "c") rfl rfl rfl).2.2.1.trans (by decide),
   (C9_bearer_request_shape _ (bytes "a b") (bytes "c") rfl rfl rfl).2.2.2.2.2.2.2.2.2.1
      Unit (List (Str × Str)) _ get_field () (if_pos rfl),
   (C9_bearer_request_shape _ (bytes "a b") (bytes "c") rfl rfl rfl).2.2.2.2.2.2.2.2.2.2
      Unit (List (Str × Str)) _ get_field
      [(bytes "token_type", bytes "bearer"), (bytes "access_token", bytes "T")] (bytes "T")
      (if_pos rfl) rfl rfl⟩

/-! ## The nonce -/

theorem length_base64_encode : ∀ l : List Byte,
    (base64_encode l).length = 4 * ((l.length + 2) / 3)
  | a :: b :: c :: rest => by
    simp only [base64_encode, List.length_cons, length_base64_encode rest]
    omega
  | [_, _] => by simp [base64_encode]
  | [_] => by simp [base64_encode]
  | [] => by simp [base64_encode]

/-- C10: for 32 random bytes, the nonce is their base64 encoding with every character that is
not an ASCII letter or digit removed, the others kept in order; it consists of ASCII letters
and digits only and has at most 44 characters. -/
theorem C10_gen_nonce (rand : List Byte) (h : rand.length = 32) :
    gen_nonce rand = (base64_encode rand).filter (fun c => isalpha c || isdigit c) ∧
      (∀ c ∈ gen_nonce rand, isalpha c = true ∨ isdigit c = true) ∧
      (gen_nonce rand).length ≤ 44 := by
  have hf : gen_nonce rand = (base64_encode rand).filter (fun c => isalpha c || isdigit c) := by
    simp only [gen_nonce, isalnum, Bool.not_not]
  refine ⟨hf, ?_, ?_⟩
  · intro c hc
    rw [hf, List.mem_filter] at hc
    simpa using hc.2
  · rw [hf]
    calc ((base64_encode rand).filter (fun c => isalpha c || isdigit c)).length
        ≤ (base64_encode rand).length := List.length_filter_le _ _
      _ = 44 := by rw [length_base64_encode, h]

set_option maxRecDepth 100000 in
/-- Witness of C10 at the bytes 0, 1, ..., 31. -/
theorem C10_gen_nonce_witness :
    (List.range 32).length = 32 ∧
      gen_nonce ((List.range 32).map Fin.ofNat) =
        bytes "AAECAwQFBgcICQoLDA0ODxAREhMUFRYXGBkaGxwdHh8" :=
  ⟨by decide, by
    have h := (C10_gen_nonce ((List.range 32).map Fin.ofNat) (by decide)).1
    rw [h]
    decide⟩

/-! ## The joined parameter string -/

theorem foldl_join (v : List Str) (acc : Str) :
    v.foldl (fun (st : Str × Str) key_value_str => (bytes "&", st.2 ++ st.1 ++ key_value_str))
        (bytes "&", acc) =
      (bytes "&", acc ++ v.flatMap (fun e => bytes "&" ++ e)) := by
  induction v generalizing acc with
  | nil => simp
  | cons e es ih =>
    rw [List.foldl_cons, ih, List.flatMap_cons]
    simp only [List.append_assoc]

theorem join_parameters_cons (e : Str) (es : List Str) :
    join_parameters (e :: es) = e ++ es.flatMap (fun x => bytes "&" ++ x) := by
  rw [join_parameters, List.foldl_cons]
  simp only [List.append_nil, List.nil_append]
  rw [foldl_join]

theorem flatten_intersperse_cons (sep e : Str) (es : List Str) :
    (List.intersperse sep (e :: es)).flatten = e ++ es.flatMap (fun x => sep ++ x) := by
  induction es generalizing e with
  | nil => simp
  | cons x xs ih =>
    rw [List.intersperse_cons_cons, List.flatten_cons, List.flatten_cons, ih]
    simp [List.append_assoc]

/-- The joining loop computes the entries separated by single `&` characters. -/
theorem join_parameters_eq_intercalate (v : List Str) :
    join_parameters v = (bytes "&").intercalate v := by
  cases v with
  | nil => rfl
  | cons e es => rw [join_parameters_cons, List.intercalate, flatten_intersperse_cons]

theorem join_parameters_concat (es : List Str) (e : Str) :
    ∃ front : Str, join_parameters (es ++ [e]) = front ++ e := by
  cases es with
  | nil => exact ⟨[], by simp [join_parameters]⟩
  | cons x xs =>
    refine ⟨x ++ xs.flatMap (fun y => bytes "&" ++ y) ++ bytes "&", ?_⟩
    rw [List.cons_append, join_parameters_cons]
    simp [List.append_assoc]

theorem count_join_parameters (c : Byte) (hc : List.count c (bytes "&") = 1) (e : Str)
    (es : List Str) (h : ∀ x ∈ e :: es, List.count c x = 0) :
    List.count c (join_parameters (e :: es)) = es.length := by
  rw [join_parameters_cons, List.count_append, h e (List.mem_cons_self _ _), Nat.zero_add]
  have h2 : ∀ x ∈ es, List.count c x = 0 := fun x hx => h x (List.mem_cons_of_mem _ hx)
  clear h
  induction es with
  | nil => rfl
  | cons x xs ih =>
    rw [List.flatMap_cons, List.count_append, List.count_append, hc,
      h2 x (List.mem_cons_self _ _), ih (fun y hy => h2 y (List.mem_cons_of_mem _ hy))]
    simp only [List.length_cons]
    omega

theorem count_encode_pair (c : Byte) (kv : Str × Str) (hc : unreserved c = false)
    (h37 : c ≠ 37) (h61 : c ≠ 61) : List.count c (encode_pair kv) = 0 := by
  have he : List.count c (bytes "=") = 0 := by
    rw [List.count_eq_zero]
    intro hmem
    have h : bytes "=" = [61] := by decide
    rw [h, List.mem_singleton] at hmem
    exact h61 hmem
  rw [encode_pair, List.count_append, List.count_append, count_url_encode c _ hc h37,
    count_url_encode c _ hc h37, he]

theorem mem_encoded_parameters (request : Request) (keys : Credentials)
    (version sig_method nonce timestamp e : Str)
    (h : e ∈ encoded_parameters request keys version sig_method nonce timestamp) :
    ∃ kv, e = encode_pair kv := by
  rw [encoded_parameters_eq] at h
  simp only [List.mem_append, List.mem_map, List.mem_cons, List.mem_singleton,
    List.mem_nil_iff, or_false] at h
  rcases h with (⟨kv, _, rfl⟩ | h | h | h | h | h | h) | ⟨kv, _, rfl⟩
  · exact ⟨kv, rfl⟩
  · exact ⟨_, h⟩
  · exact ⟨_, h⟩
  · exact ⟨_, h⟩
  · exact ⟨_, h⟩
  · exact ⟨_, h⟩
  · exact ⟨_, h⟩
  · exact ⟨kv, rfl⟩

theorem encode_pair_ne_nil (kv : Str × Str) : encode_pair kv ≠ [] := by
  have h : bytes "=" = [61] := by decide
  simp [encode_pair, h]

theorem mem_sorted_parameters (request : Request) (keys : Credentials)
    (version sig_method nonce timestamp e : Str)
    (h : e ∈ sorted_parameters request keys version sig_method nonce timestamp) :
    ∃ kv, e = encode_pair kv :=
  mem_encoded_parameters request keys version sig_method nonce timestamp e
    ((sort_perm _).mem_iff.1 h)

theorem length_sorted_parameters (request : Request) (keys : Credentials)
    (version sig_method nonce timestamp : Str) :
    (sorted_parameters request keys version sig_method nonce timestamp).length =
      request.queries.length + request.messages.length + 6 := by
  rw [sorted_parameters, (sort_perm _).length_eq, encoded_parameters_eq]
  simp only [List.length_append, List.length_map, List.length_cons, List.length_nil]
  omega

theorem amp_not_mem_sorted_parameters (request : Request) (keys : Credentials)
    (version sig_method nonce timestamp e : Str)
    (h : e ∈ sorted_parameters request keys version sig_method nonce timestamp) :
    (38 : Byte) ∉ e := by
  obtain ⟨kv, rfl⟩ := mem_sorted_parameters request keys version sig_method nonce timestamp e h
  exact List.count_eq_zero.1 (count_encode_pair 38 kv (by decide) (by decide) (by decide))

theorem head_join_parameters (e : Str) (es : List Str) (he : e ≠ []) :
    ∃ x ∈ e, (join_parameters (e :: es)).head? = some x := by
  cases e with
  | nil => exact absurd rfl he
  | cons x e' => exact ⟨x, List.mem_cons_self _ _, by rw [join_parameters_cons]; rfl⟩

theorem last_join_parameters (es : List Str) (e : Str) (he : e ≠ []) :
    ∃ x ∈ e, (join_parameters (es ++ [e])).getLast? = some x := by
  obtain ⟨front, hf⟩ := join_parameters_concat es e
  rcases List.eq_nil_or_concat e with h | ⟨e', x, h⟩
  · exact absurd h he
  · rw [List.concat_eq_append] at h
    refine ⟨x, by rw [h]; simp, ?_⟩
    rw [hf, h, ← List.append_assoc, List.getLast?_concat]

/-- C11: the parameter string is the sorted entries joined with single `&` separators, none
leading and none trailing; no entry contains `&`, so splitting the parameter string on `&`
gives back the sorted entry list, and the string contains `|queries| + |messages| + 5`
ampersands. -/
theorem C11_parameters_string_join (request : Request) (keys : Credentials)
    (version sig_method nonce timestamp : Str) :
    parameters_string request keys version sig_method nonce timestamp =
        List.intercalate [38]
          (sorted_parameters request keys version sig_method nonce timestamp) ∧
      (∀ e ∈ sorted_parameters request keys version sig_method nonce timestamp,
        (38 : Byte) ∉ e) ∧
      List.splitOn (38 : Byte) (parameters_string request keys version sig_method nonce timestamp) =
        sorted_parameters request keys version sig_method nonce timestamp ∧
      List.count (38 : Byte) (parameters_string request keys version sig_method nonce timestamp) =
        request.queries.length + request.messages.length + 5 ∧
      (parameters_string request keys version sig_method nonce timestamp).head? ≠ some 38 ∧
      (parameters_string request keys version sig_method nonce timestamp).getLast? ≠ some 38 := by
  have hamp : bytes "&" = [38] := by decide
  have hlen := length_sorted_parameters request keys version sig_method nonce timestamp
  have hno := amp_not_mem_sorted_parameters request keys version sig_method nonce timestamp
  have hmem := mem_sorted_parameters request keys version sig_method nonce timestamp
  have hne : sorted_parameters request keys version sig_method nonce timestamp ≠ [] := by
    intro h
    rw [h] at hlen
    simp at hlen
  have hj : parameters_string request keys version sig_method nonce timestamp =
      List.intercalate [38]
        (sorted_parameters request keys version sig_method nonce timestamp) := by
    rw [parameters_string, join_parameters_eq_intercalate, hamp]
  refine ⟨hj, hno, ?_, ?_, ?_, ?_⟩
  · rw [hj]
    exact List.splitOn_intercalate _ 38 hno hne
  · rw [parameters_string]
    obtain ⟨e, es, hs⟩ := List.exists_cons_of_ne_nil hne
    rw [hs] at hlen hno
    rw [hs, count_join_parameters 38 (by decide) e es
      (fun x hx => List.count_eq_zero.2 (hno x hx))]
    simp only [List.length_cons] at hlen
    omega
  · obtain ⟨e, es, hs⟩ := List.exists_cons_of_ne_nil hne
    obtain ⟨kv, hkv⟩ := hmem e (by rw [hs]; exact List.mem_cons_self _ _)
    obtain ⟨x, hx, hhead⟩ := head_join_parameters e es (hkv ▸ encode_pair_ne_nil kv)
    rw [parameters_string, hs, hhead]
    intro h
    rw [Option.some.inj h] at hx
    exact hno e (by rw [hs]; exact List.mem_cons_self _ _) hx
  · rcases List.eq_nil_or_concat
      (sorted_parameters request keys version sig_method nonce timestamp) with h | ⟨es, e, hs⟩
    · exact absurd h hne
    · rw [List.concat_eq_append] at hs
      obtain ⟨kv, hkv⟩ := hmem e (by rw [hs]; simp)
      obtain ⟨x, hx, hlast⟩ := last_join_parameters es e (hkv ▸ encode_pair_ne_nil kv)
      rw [parameters_string, hs, hlast]
      intro h
      rw [Option.some.inj h] at hx
      exact hno e (by rw [hs]; simp) hx

/-! ## The signature base string -/

theorem url_encode_append (a b : Str) : url_encode (a ++ b) = url_encode a ++ url_encode b := by
  simp [url_encode]

theorem url_encode_mono (e s : Str) (h : e <:+: s) : url_encode e <:+: url_encode s := by
  obtain ⟨a, b, rfl⟩ := h
  exact ⟨url_encode a, url_encode b, by rw [url_encode_append, url_encode_append]⟩

theorem entry_within_join_parameters (e : Str) (v : List Str) (h : e ∈ v) :
    e <:+: join_parameters v := by
  cases v with
  | nil => simp at h
  | cons x xs =>
    rw [join_parameters_cons]
    rcases List.mem_cons.1 h with rfl | hx
    · exact (List.prefix_append _ _).isInfix
    · refine List.IsInfix.trans ?_ (List.suffix_append _ _).isInfix
      clear h
      induction xs with
      | nil => simp at hx
      | cons y ys ih =>
        rw [List.flatMap_cons]
        rcases List.mem_cons.1 hx with rfl | hy
        · exact List.IsInfix.trans (List.suffix_append _ _).isInfix
            (List.prefix_append _ _).isInfix
        · exact List.IsInfix.trans (ih hy) (List.suffix_append _ _).isInfix

set_option maxRecDepth 100000 in
theorem toupper_eq_amp : ∀ c : Byte, toupper c = 38 → c = 38 := by
  decide

theorem amp_not_mem_to_upper_copy (s : Str) (h : (38 : Byte) ∉ s) :
    (38 : Byte) ∉ to_upper_copy s := by
  intro hmem
  obtain ⟨c, hc, hc2⟩ := List.mem_map.1 hmem
  rw [toupper_eq_amp c hc2] at hc
  exact h hc

theorem amp_not_mem_url_encode (s : Str) : (38 : Byte) ∉ url_encode s :=
  List.count_eq_zero.1 (count_url_encode 38 s (by decide) (by decide))

theorem mem_encoded_parameters_of_mem (request : Request) (keys : Credentials)
    (version sig_method nonce timestamp : Str) (kv : Str × Str)
    (h : kv ∈ request.queries ++ request.messages) :
    encode_pair kv ∈ sorted_parameters request keys version sig_method nonce timestamp := by
  rw [sorted_parameters, (sort_perm _).mem_iff, encoded_parameters_eq]
  rcases List.mem_append.1 h with hq | hm
  · exact List.mem_append_left _ (List.mem_append_left _ (List.mem_map_of_mem _ hq))
  · exact List.mem_append_right _ (List.mem_map_of_mem _ hm)

/-- C12: the base URL and the parameter string are percent-encoded once more, each as a
whole, in the signature base string: every `=`, `&` and `%` of the parameter string becomes
`%3D`, `%26` and `%25` (a space of a value ends up as `%2520`), and every entry of a query or
body pair occurs doubly encoded.  When the HTTP method contains no `&`, the base string has
exactly two `&` and splits in one way only into method, encoded URL and encoded parameters. -/
theorem C12_double_encoding (request : Request) (keys : Credentials)
    (version sig_method nonce timestamp : Str) (hm : (38 : Byte) ∉ request.HTTP_method) :
    sig_base_string request keys version sig_method nonce timestamp =
        to_upper_copy request.HTTP_method ++ [38] ++ url_encode (base_url request) ++ [38] ++
          url_encode (parameters_string request keys version sig_method nonce timestamp) ∧
      (∀ x y : Str, url_encode (x ++ bytes "=" ++ y) = url_encode x ++ bytes "%3D" ++ url_encode y) ∧
      (∀ x y : Str, url_encode (x ++ bytes "&" ++ y) = url_encode x ++ bytes "%26" ++ url_encode y) ∧
      (∀ x y : Str, url_encode (x ++ bytes "%" ++ y) = url_encode x ++ bytes "%25" ++ url_encode y) ∧
      url_encode (url_encode (bytes " ")) = bytes "%2520" ∧
      (∀ kv ∈ request.queries ++ request.messages,
        url_encode (url_encode kv.1) ++ bytes "%3D" ++ url_encode (url_encode kv.2) <:+:
          sig_base_string request keys version sig_method nonce timestamp) ∧
      List.count (38 : Byte) (sig_base_string request keys version sig_method nonce timestamp) = 2 ∧
      List.splitOn (38 : Byte) (sig_base_string request keys version sig_method nonce timestamp) =
        [to_upper_copy request.HTTP_method, url_encode (base_url request),
         url_encode (parameters_string request keys version sig_method nonce timestamp)] ∧
      (∀ a b c : Str, (38 : Byte) ∉ a → (38 : Byte) ∉ b → (38 : Byte) ∉ c →
        sig_base_string request keys version sig_method nonce timestamp =
          a ++ [38] ++ b ++ [38] ++ c →
        a = to_upper_copy request.HTTP_method ∧ b = url_encode (base_url request) ∧
          c = url_encode (parameters_string request keys version sig_method nonce timestamp)) := by
  have hamp : bytes "&" = [38] := by decide
  have hM := amp_not_mem_to_upper_copy request.HTTP_method hm
  have hU := amp_not_mem_url_encode (base_url request)
  have hP := amp_not_mem_url_encode
    (parameters_string request keys version sig_method nonce timestamp)
  have hthree : ∀ a b c : Str, a ++ [38] ++ b ++ [38] ++ c = List.intercalate [38] [a, b, c] := by
    intro a b c
    simp [List.intercalate]
  have hsplit3 : ∀ a b c : Str, (38 : Byte) ∉ a → (38 : Byte) ∉ b → (38 : Byte) ∉ c →
      List.splitOn (38 : Byte) (a ++ [38] ++ b ++ [38] ++ c) = [a, b, c] := by
    intro a b c ha hb hc
    rw [hthree]
    refine List.splitOn_intercalate _ 38 ?_ (List.cons_ne_nil _ _)
    intro l hl
    simp only [List.mem_cons, List.mem_singleton, List.mem_nil_iff, or_false] at hl
    rcases hl with rfl | rfl | rfl
    · exact ha
    · exact hb
    · exact hc
  have hbase : sig_base_string request keys version sig_method nonce timestamp =
      to_upper_copy request.HTTP_method ++ [38] ++ url_encode (base_url request) ++ [38] ++
        url_encode (parameters_string request keys version sig_method nonce timestamp) := by
    rw [sig_base_string, hamp]
    simp only [List.append_assoc]
  have henc : ∀ (c : Byte) (x y : Str),
      url_encode (x ++ [c] ++ y) = url_encode x ++ encode_byte c ++ url_encode y := by
    intro c x y
    rw [url_encode_append, url_encode_append]
    simp [url_encode]
  refine ⟨hbase, ?_, ?_, ?_, by decide, ?_, ?_, ?_, ?_⟩
  · intro x y
    have h1 : bytes "=" = [61] := by decide
    have h2 : bytes "%3D" = encode_byte 61 := by decide
    rw [h1, h2, henc]
  · intro x y
    have h2 : bytes "%26" = encode_byte 38 := by decide
    rw [hamp, h2, henc]
  · intro x y
    have h1 : bytes "%" = [37] := by decide
    have h2 : bytes "%25" = encode_byte 37 := by decide
    rw [h1, h2, henc]
  · intro kv hkv
    have hin : encode_pair kv <:+:
        parameters_string request keys version sig_method nonce timestamp :=
      entry_within_join_parameters _ _
        (mem_encoded_parameters_of_mem request keys version sig_method nonce timestamp kv hkv)
    have h1 : bytes "=" = [61] := by decide
    have h2 : bytes "%3D" = encode_byte 61 := by decide
    have h3 : url_encode (encode_pair kv) =
        url_encode (url_encode kv.1) ++ bytes "%3D" ++ url_encode (url_encode kv.2) := by
      rw [encode_pair, h1, h2, henc]
    rw [← h3, hbase]
    exact List.IsInfix.trans (url_encode_mono _ _ hin) (List.suffix_append _ _).isInfix
  · rw [hbase]
    simp only [List.count_append, List.count_eq_zero.2 hM, List.count_eq_zero.2 hU,
      List.count_eq_zero.2 hP]
    decide
  · rw [hbase]
    exact hsplit3 _ _ _ hM hU hP
  · intro a b c ha hb hc heq
    have h1 := hsplit3 a b c ha hb hc
    rw [← heq, hbase, hsplit3 _ _ _ hM hU hP] at h1
    simp only [List.cons.injEq, and_true] at h1
    exact ⟨h1.1.symm, h1.2.1.symm, h1.2.2.symm⟩

set_option maxRecDepth 100000 in
/-- Witness of C12 at a `GET` request whose query value `a b` contains a space. -/
theorem C12_double_encoding_witness :
    (38 : Byte) ∉ bytes "GET" ∧
      List.splitOn (38 : Byte)
          (sig_base_string
            { HTTP_method := bytes "GET", HTTP_protocol := bytes "https", host := bytes "h.io",
              URI := bytes "/p", queries := [(bytes "q", bytes "a b")], messages := [],
              headers := [], content_type := [], authorization := [] }
            { consumer_key := bytes "k", consumer_secret := [], user_token := bytes "t",
              token_secret := [] }
            (bytes "1.0") (bytes "HMAC-SHA1") (bytes "n") (bytes "1")) =
        [bytes "GET", bytes "https%3A%2F%2Fh.io%2Fp",
         bytes ("oauth_consumer_key%3Dk%26oauth_nonce%3Dn%26oauth_signature_method%3DHMAC-SHA1" ++
           "%26oauth_timestamp%3D1%26oauth_token%3Dt%26oauth_version%3D1.0%26q%3Da%2520b")] :=
  ⟨by decide,
   (C12_double_encoding
      { HTTP_method := bytes "GET", HTTP_protocol := bytes "https", host := bytes "h.io",
        URI := bytes "/p", queries := [(bytes "q", bytes "a b")], messages := [],
        headers := [], content_type := [], authorization := [] }
      { consumer_key := bytes "k", consumer_secret := [], user_token := bytes "t",
        token_secret := [] }
      (bytes "1.0") (bytes "HMAC-SHA1") (bytes "n") (bytes "1")
      (by decide)).2.2.2.2.2.2.2.1.trans (by decide)⟩

/-! ## Dependence on the parameters as a multiset -/

theorem encoded_parameters_perm (request : Request) (keys : Credentials)
    (version sig_method nonce timestamp : Str) :
    List.Perm (encoded_parameters request keys version sig_method nonce timestamp)
      ([encode_pair (bytes "oauth_consumer_key", keys.consumer_key),
        encode_pair (bytes "oauth_nonce", nonce),
        encode_pair (bytes "oauth_signature_method", sig_method),
        encode_pair (bytes "oauth_timestamp", timestamp),
        encode_pair (bytes "oauth_token", keys.user_token),
        encode_pair (bytes "oauth_version", version)] ++
        (request.queries ++ request.messages).map encode_pair) := by
  rw [encoded_parameters_eq, List.map_append, ← List.append_assoc]
  exact List.Perm.append_right _ List.perm_append_comm

theorem sort_eq_of_perm (v w : List Str) (h : List.Perm v w) : sort v = sort w :=
  List.eq_of_perm_of_sorted (((sort_perm v).trans h).trans (sort_perm w).symm)
    (sort_sorted v) (sort_sorted w)

/-- The sorted entries depend only on the multiset of query and body pairs. -/
theorem sorted_parameters_perm (request : Request) (keys : Credentials)
    (version sig_method nonce timestamp : Str) (queries messages : List (Str × Str))
    (h : List.Perm (queries ++ messages) (request.queries ++ request.messages)) :
    sorted_parameters { request with queries := queries, messages := messages } keys version
        sig_method nonce timestamp =
      sorted_parameters request keys version sig_method nonce timestamp := by
  rw [sorted_parameters, sorted_parameters]
  apply sort_eq_of_perm
  refine (encoded_parameters_perm _ keys version sig_method nonce timestamp).trans
    (List.Perm.trans ?_ (encoded_parameters_perm request keys version sig_method nonce
      timestamp).symm)
  exact List.Perm.append_left _ (h.map encode_pair)

/-- C13: for fixed credentials, nonce, timestamp, version and signature method, replacing the
query and body lists of a request by lists with the same pairs in total (a permutation of
either list, or a pair moved from one list to the other) leaves the parameter string, the
signature base string and the signature unchanged. -/
theorem C13_parameter_multiset (HMAC : Str → Str → List Byte) (request : Request)
    (keys : Credentials) (version sig_method nonce timestamp : Str)
    (queries messages : List (Str × Str))
    (h : List.Perm (queries ++ messages) (request.queries ++ request.messages)) :
    parameters_string { request with queries := queries, messages := messages } keys version
          sig_method nonce timestamp =
        parameters_string request keys version sig_method nonce timestamp ∧
      sig_base_string { request with queries := queries, messages := messages } keys version
          sig_method nonce timestamp =
        sig_base_string request keys version sig_method nonce timestamp ∧
      gen_signature HMAC { request with queries := queries, messages := messages } keys version
          sig_method nonce timestamp =
        gen_signature HMAC request keys version sig_method nonce timestamp := by
  have hs := sorted_parameters_perm request keys version sig_method nonce timestamp
    queries messages h
  have hp : parameters_string { request with queries := queries, messages := messages } keys
      version sig_method nonce timestamp =
      parameters_string request keys version sig_method nonce timestamp := by
    rw [parameters_string, parameters_string, hs]
  have hb : sig_base_string { request with queries := queries, messages := messages } keys
      version sig_method nonce timestamp =
      sig_base_string request keys version sig_method nonce timestamp := by
    rw [sig_base_string, sig_base_string, hp]
    simp only [base_url]
  exact ⟨hp, hb, by rw [gen_signature, gen_signature, hb]⟩

/-- Witness of C13: the pair `b=2` is moved from the queries to the body and the remaining
pairs are reordered. -/
theorem C13_parameter_multiset_witness :
    List.Perm ([(bytes "a", bytes "1")] ++ [(bytes "c", bytes "3"), (bytes "b", bytes "2")])
        ([(bytes "b", bytes "2"), (bytes "a", bytes "1")] ++ [(bytes "c", bytes "3")]) ∧
      gen_signature (fun key message => key ++ message)
          { HTTP_method := bytes "POST", HTTP_protocol := bytes "https", host := bytes "h.io",
            URI := bytes "/p", queries := [(bytes "a", bytes "1")],
            messages := [(bytes "c", bytes "3"), (bytes "b", bytes "2")],
            headers := [], content_type := [], authorization := [] }
          { consumer_key := bytes "k", consumer_secret := bytes "s", user_token := bytes "t",
            token_secret := bytes "u" }
          (bytes "1.0") (bytes "HMAC-SHA1") (bytes "n") (bytes "1") =
        gen_signature (fun key message => key ++ message)
          { HTTP_method := bytes "POST", HTTP_protocol := bytes "https", host := bytes "h.io",
            URI := bytes "/p", queries := [(bytes "b", bytes "2"), (bytes "a", bytes "1")],
            messages := [(bytes "c", bytes "3")],
            headers := [], content_type := [], authorization := [] }
          { consumer_key := bytes "k", consumer_secret := bytes "s", user_token := bytes "t",
            token_secret := bytes "u" }
          (bytes "1.0") (bytes "HMAC-SHA1") (bytes "n") (bytes "1") :=
  ⟨by decide,
   (C13_parameter_multiset (fun key message => key ++ message)
      { HTTP_method := bytes "POST", HTTP_protocol := bytes "https", host := bytes "h.io",
        URI := bytes "/p", queries := [(bytes "b", bytes "2"), (bytes "a", bytes "1")],
        messages := [(bytes "c", bytes "3")],
        headers := [], content_type := [], authorization := [] }
      { consumer_key := bytes "k", consumer_secret := bytes "s", user_token := bytes "t",
        token_secret := bytes "u" }
      (bytes "1.0") (bytes "HMAC-SHA1") (bytes "n") (bytes "1")
      [(bytes "a", bytes "1")] [(bytes "c", bytes "3"), (bytes "b", bytes "2")]
      (by decide)).2.2⟩

/-! ## Consistency of the header with the signature -/

/-- The signature does not read the headers, the content type or the authorization field of
the request. -/
theorem gen_signature_unread_fields (HMAC : Str → Str → List Byte) (request : Request)
    (keys : Credentials) (version sig_method nonce timestamp : Str)
    (headers : List (Str × Str)) (content_type prior : Str) :
    gen_signature HMAC
        { request with headers := headers, content_type := content_type, authorization := prior }
        keys version sig_method nonce timestamp =
      gen_signature HMAC request keys version sig_method nonce timestamp := by
  simp only [gen_signature, sig_base_string, base_url, parameters_string, sorted_parameters,
    encoded_parameters]

/-- C14: the header written by `authorize` carries, as `oauth_signature`, the percent-encoded
signature computed by `gen_signature` with the very nonce, timestamp, version `1.0`, method
`HMAC-SHA1`, consumer key and user token whose encodings stand in the same header; and the
signature does not depend on the headers, content type or prior authorization value of the
request. -/
theorem C14_header_matches_signature (HMAC : Str → Str → List Byte) (rand : List Byte)
    (now : Int) (request : Request) (keys : Credentials) :
    (∃ nonce timestamp version sig_method : Str,
        nonce = gen_nonce rand ∧ timestamp = gen_timestamp now ∧
        version = bytes "1.0" ∧ sig_method = bytes "HMAC-SHA1" ∧
        (authorize HMAC rand now request keys).authorization =
          bytes "OAuth " ++
          url_encode (bytes "oauth_consumer_key") ++ bytes "=\"" ++
            url_encode keys.consumer_key ++ bytes "\", " ++
          url_encode (bytes "oauth_nonce") ++ bytes "=\"" ++ url_encode nonce ++ bytes "\", " ++
          url_encode (bytes "oauth_signature") ++ bytes "=\"" ++
            url_encode (gen_signature HMAC request keys version sig_method nonce timestamp) ++
            bytes "\", " ++
          url_encode (bytes "oauth_signature_method") ++ bytes "=\"" ++
            url_encode sig_method ++ bytes "\", " ++
          url_encode (bytes "oauth_timestamp") ++ bytes "=\"" ++
            url_encode timestamp ++ bytes "\", " ++
          url_encode (bytes "oauth_token") ++ bytes "=\"" ++
            url_encode keys.user_token ++ bytes "\", " ++
          url_encode (bytes "oauth_version") ++ bytes "=\"" ++ url_encode version ++
            bytes "\"") ∧
      (∀ (version sig_method nonce timestamp : Str) (headers : List (Str × Str))
          (content_type prior : Str),
        gen_signature HMAC
            { request with
              headers := headers, content_type := content_type, authorization := prior }
            keys version sig_method nonce timestamp =
          gen_signature HMAC request keys version sig_method nonce timestamp) ∧
      (∀ (headers : List (Str × Str)) (content_type prior : Str),
        (authorize HMAC rand now
            { request with
              headers := headers, content_type := content_type, authorization := prior }
            keys).authorization =
          (authorize HMAC rand now request keys).authorization) := by
  refine ⟨⟨gen_nonce rand, gen_timestamp now, bytes "1.0", bytes "HMAC-SHA1", rfl, rfl, rfl,
    rfl, ?_⟩, ?_, ?_⟩
  · simp only [authorize, oauth_header, List.nil_append, List.append_assoc]
  · intro version sig_method nonce timestamp headers content_type prior
    exact gen_signature_unread_fields HMAC request keys version sig_method nonce timestamp
      headers content_type prior
  · intro headers content_type prior
    simp only [authorize, gen_signature_unread_fields]

/-! ## Length of the nonce -/

theorem base64_encode_append : ∀ (l t : List Byte), l.length % 3 = 0 →
    base64_encode (l ++ t) = base64_encode l ++ base64_encode t
  | [], t, _ => by simp [base64_encode]
  | [_], _, h => by simp at h
  | [_, _], _, h => by simp at h
  | a :: b :: c :: rest, t, h => by
    have hr : rest.length % 3 = 0 := by
      simp only [List.length_cons] at h
      omega
    have ih := base64_encode_append rest t hr
    simp only [List.cons_append, base64_encode]
    rw [show rest.append t = rest ++ t from rfl, ih]

set_option maxRecDepth 100000 in
theorem isalnum_last_sextet : ∀ b : Byte, isalnum (b64_char (b.val % 16 * 4)) = true := by
  decide

/-- C15: for 32 random bytes the base64 string has 44 characters, the last one being the
padding `=`, which is erased, and the one before it encoding the four low bits of the last
byte, which is a letter or digit and is kept; so the nonce is not empty and has at most 43
characters. -/
theorem C15_gen_nonce_bounds (rand : List Byte) (h : rand.length = 32) :
    (base64_encode rand).length = 44 ∧
      (∃ (body : Str) (b : Byte),
        rand.getLast? = some b ∧
        base64_encode rand = body ++ [b64_char (b.val % 16 * 4), 61] ∧
        body.length = 42 ∧
        isalnum (b64_char (b.val % 16 * 4)) = true ∧
        isalnum 61 = false ∧
        gen_nonce rand = body.filter (fun c => isalnum c) ++ [b64_char (b.val % 16 * 4)]) ∧
      gen_nonce rand ≠ [] ∧
      (gen_nonce rand).length ≤ 43 := by
  have hlen : (base64_encode rand).length = 44 := by rw [length_base64_encode, h]
  have hsplit : rand = rand.take 30 ++ rand.drop 30 := (List.take_append_drop 30 rand).symm
  have htake : (rand.take 30).length = 30 := by rw [List.length_take, h]; rfl
  have hdrop : (rand.drop 30).length = 2 := by rw [List.length_drop, h]
  obtain ⟨a, b, hab⟩ : ∃ a b, rand.drop 30 = [a, b] := by
    match hd : rand.drop 30, hdrop with
    | [a, b], _ => exact ⟨a, b, rfl⟩
  have h61 : isalnum (61 : Byte) = false := by decide
  have hx := isalnum_last_sextet b
  have henc : base64_encode rand =
      (base64_encode (rand.take 30) ++
        [b64_char (a.val / 4), b64_char (a.val % 4 * 16 + b.val / 16)]) ++
        [b64_char (b.val % 16 * 4), 61] := by
    conv_lhs => rw [hsplit]
    rw [base64_encode_append _ _ (by rw [htake]), hab]
    simp [base64_encode]
  have hnonce : gen_nonce rand =
      (base64_encode (rand.take 30) ++
        [b64_char (a.val / 4), b64_char (a.val % 4 * 16 + b.val / 16)]).filter
          (fun c => isalnum c) ++ [b64_char (b.val % 16 * 4)] := by
    rw [gen_nonce]
    simp only [Bool.not_not]
    rw [henc, List.filter_append]
    simp [List.filter_cons, hx, h61]
  have hbody : (base64_encode (rand.take 30) ++
      [b64_char (a.val / 4), b64_char (a.val % 4 * 16 + b.val / 16)]).length = 42 := by
    rw [List.length_append, length_base64_encode, htake]
    rfl
  refine ⟨hlen, ⟨_, b, ?_, henc, hbody, hx, h61, hnonce⟩, ?_, ?_⟩
  · rw [hsplit, hab]
    simp
  · rw [hnonce]
    simp
  · rw [hnonce, List.length_append]
    have := List.length_filter_le (fun c => isalnum c)
      (base64_encode (rand.take 30) ++
        [b64_char (a.val / 4), b64_char (a.val % 4 * 16 + b.val / 16)])
    rw [hbody] at this
    simp only [List.length_singleton]
    omega

set_option maxRecDepth 100000 in
/-- Witness of C15 at 32 bytes of value 255, whose nonce is the single character `8`. -/
theorem C15_gen_nonce_bounds_witness :
    (List.replicate 32 (255 : Byte)).length = 32 ∧
      gen_nonce (List.replicate 32 (255 : Byte)) = bytes "8" ∧
      gen_nonce (List.replicate 32 (255 : Byte)) ≠ [] :=
  ⟨by decide, by decide, (C15_gen_nonce_bounds (List.replicate 32 255) (by decide)).2.2.1⟩

end network
